import Mathlib

/-!
Shallow embedding of the `lw_math` fixed-point math library
(`lw_math.c` / `lw_math.h`) and verification of its specification.

Machine integers are modelled as `Int` (the C code's `int16_t`/`int32_t`
values, with range hypotheses where the claims need them); C's truncating
signed division `/` is `Int.tdiv`; a narrowing cast `(int16_t)x` of an
`int32_t` is reduction modulo `2^16` into `[-32768, 32767]`; a cast to an
unsigned type is reduction modulo the type's size (`Int.emod`, which is
non-negative).
-/

/-- `SIN_COS_TABLE`: the 256-entry quarter-wave sine table of `lw_math.c`,
signed 16-bit Q1.15 amplitudes. -/
def sin_cos_table : List Int :=
[0x0000,0x00C9,0x0192,0x025B,0x0324,0x03ED,0x04B6,0x057F,
 0x0648,0x0711,0x07D9,0x08A2,0x096A,0x0A33,0x0AFB,0x0BC4,
 0x0C8C,0x0D54,0x0E1C,0x0EE3,0x0FAB,0x1072,0x113A,0x1201,
 0x12C8,0x138F,0x1455,0x151C,0x15E2,0x16A8,0x176E,0x1833,
 0x18F9,0x19BE,0x1A82,0x1B47,0x1C0B,0x1CCF,0x1D93,0x1E57,
 0x1F1A,0x1FDD,0x209F,0x2161,0x2223,0x22E5,0x23A6,0x2467,
 0x2528,0x25E8,0x26A8,0x2767,0x2826,0x28E5,0x29A3,0x2A61,
 0x2B1F,0x2BDC,0x2C99,0x2D55,0x2E11,0x2ECC,0x2F87,0x3041,
 0x30FB,0x31B5,0x326E,0x3326,0x33DF,0x3496,0x354D,0x3604,
 0x36BA,0x376F,0x3824,0x38D9,0x398C,0x3A40,0x3AF2,0x3BA5,
 0x3C56,0x3D07,0x3DB8,0x3E68,0x3F17,0x3FC5,0x4073,0x4121,
 0x41CE,0x427A,0x4325,0x43D0,0x447A,0x4524,0x45CD,0x4675,
 0x471C,0x47C3,0x4869,0x490F,0x49B4,0x4A58,0x4AFB,0x4B9D,
 0x4C3F,0x4CE0,0x4D81,0x4E20,0x4EBF,0x4F5D,0x4FFB,0x5097,
 0x5133,0x51CE,0x5268,0x5302,0x539B,0x5432,0x54C9,0x5560,
 0x55F5,0x568A,0x571D,0x57B0,0x5842,0x58D3,0x5964,0x59F3,
 0x5A82,0x5B0F,0x5B9C,0x5C28,0x5CB3,0x5D3E,0x5DC7,0x5E4F,
 0x5ED7,0x5F5D,0x5FE3,0x6068,0x60EB,0x616E,0x61F0,0x6271,
 0x62F1,0x6370,0x63EE,0x646C,0x64E8,0x6563,0x65DD,0x6656,
 0x66CF,0x6746,0x67BC,0x6832,0x68A6,0x6919,0x698B,0x69FD,
 0x6A6D,0x6ADC,0x6B4A,0x6BB7,0x6C23,0x6C8E,0x6CF8,0x6D61,
 0x6DC9,0x6E30,0x6E96,0x6EFB,0x6F5E,0x6FC1,0x7022,0x7083,
 0x70E2,0x7140,0x719D,0x71F9,0x7254,0x72AE,0x7307,0x735E,
 0x73B5,0x740A,0x745F,0x74B2,0x7504,0x7555,0x75A5,0x75F3,
 0x7641,0x768D,0x76D8,0x7722,0x776B,0x77B3,0x77FA,0x783F,
 0x7884,0x78C7,0x7909,0x794A,0x7989,0x79C8,0x7A05,0x7A41,
 0x7A7C,0x7AB6,0x7AEE,0x7B26,0x7B5C,0x7B91,0x7BC5,0x7BF8,
 0x7C29,0x7C59,0x7C88,0x7CB6,0x7CE3,0x7D0E,0x7D39,0x7D62,
 0x7D89,0x7DB0,0x7DD5,0x7DFA,0x7E1D,0x7E3E,0x7E5F,0x7E7E,
 0x7E9C,0x7EB9,0x7ED5,0x7EEF,0x7F09,0x7F21,0x7F37,0x7F4D,
 0x7F61,0x7F74,0x7F86,0x7F97,0x7FA6,0x7FB4,0x7FC1,0x7FCD,
 0x7FD8,0x7FE1,0x7FE9,0x7FF0,0x7FF5,0x7FF9,0x7FFD,0x7FFE]

/-- `#define SIN_MASK 0x0300u` -/
def SIN_MASK : Nat := 0x0300

/-- `#define U0_90 0x0200u` -/
def U0_90 : Nat := 0x0200

/-- `#define U90_180 0x0300u` -/
def U90_180 : Nat := 0x0300

/-- `#define U180_270 0x0000u` -/
def U180_270 : Nat := 0x0000

/-- `#define U270_360 0x0100u` -/
def U270_360 : Nat := 0x0100

/-- `#define divSQRT_3 (int32_t)0x49E6`: 1/sqrt(3) in Q1.15. -/
def divSQRT_3 : Int := 0x49E6

/-- `trig_components_t`: cosine and sine, `int16_t` fields. -/
structure trig_components_t where
  cos : Int
  sin : Int
deriving DecidableEq

/-- `ab_t`: two components a, b (`int16_t`). -/
structure ab_t where
  a : Int
  b : Int
deriving DecidableEq

/-- `qd_t`: two components q, d (`int16_t`). -/
structure qd_t where
  q : Int
  d : Int
deriving DecidableEq

/-- `alphabeta_t`: two components alpha, beta (`int16_t`). -/
structure alphabeta_t where
  alpha : Int
  beta : Int
deriving DecidableEq

/-- The 10-bit index of `lw_math_trig_functions`:
`shindex = (int32_t)32768 + (int32_t)angle; uhindex = (uint16_t)shindex; uhindex /= 64`.
The cast to `uint16_t` is reduction mod `2^16`. -/
def trig_uhindex (angle : Int) : Nat :=
  ((32768 + angle) % 65536).toNat / 64

/-- `lw_math_trig_functions`: table lookup with quadrant folding.
`(uint8_t)(uhindex)` is `uhindex % 256`, and `(uint8_t)(0xFFu - (uint8_t)(uhindex))`
is `0xFF - uhindex % 256` (no underflow, so the outer cast is the identity).
The C `switch` has a `default` branch that leaves both fields unassigned; it is
modelled as returning `⟨0, 0⟩` (and proved unreachable separately). -/
def lw_math_trig_functions (angle : Int) : trig_components_t :=
  let uhindex := trig_uhindex angle
  let m := uhindex &&& SIN_MASK
  if m = U0_90 then
    { sin := sin_cos_table.getD (uhindex % 256) 0,
      cos := sin_cos_table.getD (0xFF - uhindex % 256) 0 }
  else if m = U90_180 then
    { sin := sin_cos_table.getD (0xFF - uhindex % 256) 0,
      cos := -sin_cos_table.getD (uhindex % 256) 0 }
  else if m = U180_270 then
    { sin := -sin_cos_table.getD (uhindex % 256) 0,
      cos := -sin_cos_table.getD (0xFF - uhindex % 256) 0 }
  else if m = U270_360 then
    { sin := -sin_cos_table.getD (0xFF - uhindex % 256) 0,
      cos := sin_cos_table.getD (uhindex % 256) 0 }
  else
    { sin := 0, cos := 0 }

/-- `lw_math_fix_2_int`: integer part of a fixed-point number.
`if (f >= 0) return f / (1L << q); else return (f - (1L << q) + 1) / (1L << q);`
C `/` is truncating division (`Int.tdiv`). -/
def lw_math_fix_2_int (f : Int) (q : Nat) : Int :=
  if 0 ≤ f then Int.tdiv f (2 ^ q)
  else Int.tdiv (f - 2 ^ q + 1) (2 ^ q)

/-- `lw_math_fix_fract_part`: `return f & ((1L << q) - 1);`.
The two's-complement AND of the 32-bit pattern of `f` with the low-`q` mask:
the bit pattern of `f` as an unsigned 32-bit word is `(f % 2^32).toNat`, and
the mask keeps its low `q` bits, a non-negative value. -/
def lw_math_fix_fract_part (f : Int) (q : Nat) : Int :=
  (((f % 2 ^ 32).toNat &&& (2 ^ q - 1) : Nat) : Int)

/-- The body of the `do … while` loop of `lw_math_sqrt`, with `fuel` the number
of remaining loop-body executions (the C loop runs the body at most 6 times:
`biter` counts up to the hard cap 6). Each run computes
`wtemprootnew = (wtemproot + input / wtemproot) / 2`; it exits returning
`wtemprootnew` when it equals `wtemproot` or when the cap is reached. -/
def sqrt_loop (input : Int) : Nat → Int → Int
  | 0, root => root
  | fuel + 1, root =>
    let next := Int.tdiv (root + Int.tdiv input root) 2
    if next = root then next
    else if fuel = 0 then next
    else sqrt_loop input fuel next

/-- `lw_math_sqrt`: Newton-Raphson integer square root, seed 128 for
`input <= 2097152` else 8192, at most 6 loop iterations, 0 for
non-positive input. -/
def lw_math_sqrt (input : Int) : Int :=
  if 0 < input then
    sqrt_loop input 6 (if input ≤ 2097152 then 128 else 8192)
  else 0

/-- `lw_math_clarke`:
`alpha = a`; `wbeta_tmp = (-(divSQRT_3*a) - (divSQRT_3*b) - (divSQRT_3*b)) / 32768`,
clamped to `[-32768, 32767]`, then `-32768` is replaced by `-32767`. -/
def lw_math_clarke (input : ab_t) : alphabeta_t :=
  let a_divSQRT3_tmp := divSQRT_3 * input.a
  let b_divSQRT3_tmp := divSQRT_3 * input.b
  let wbeta_tmp := Int.tdiv (-a_divSQRT3_tmp - b_divSQRT3_tmp - b_divSQRT3_tmp) 32768
  let hbeta_tmp : Int :=
    if 32767 < wbeta_tmp then 32767
    else if wbeta_tmp < -32768 then -32768
    else wbeta_tmp
  let beta := if hbeta_tmp = -32768 then -32767 else hbeta_tmp
  { alpha := input.a, beta := beta }

/-- `lw_math_park`:
`q = (alpha*cos - beta*sin) / 32768`, `d = (alpha*sin + beta*cos) / 32768`,
each clamped to `[-32768, 32767]` and nudged from `-32768` to `-32767`. -/
def lw_math_park (input : alphabeta_t) (theta : Int) : qd_t :=
  let c := lw_math_trig_functions theta
  let q_tmp_1 := input.alpha * c.cos
  let q_tmp_2 := input.beta * c.sin
  let wq_tmp := Int.tdiv (q_tmp_1 - q_tmp_2) 32768
  let hq_tmp : Int :=
    if 32767 < wq_tmp then 32767
    else if wq_tmp < -32768 then -32768
    else wq_tmp
  let q := if hq_tmp = -32768 then -32767 else hq_tmp
  let d_tmp_1 := input.alpha * c.sin
  let d_tmp_2 := input.beta * c.cos
  let wd_tmp := Int.tdiv (d_tmp_1 + d_tmp_2) 32768
  let hd_tmp : Int :=
    if 32767 < wd_tmp then 32767
    else if wd_tmp < -32768 then -32768
    else wd_tmp
  let d := if hd_tmp = -32768 then -32767 else hd_tmp
  { q := q, d := d }

/-- Narrowing conversion `(int16_t)x` of a 32-bit value: reduction modulo
`2^16` into `[-32768, 32767]` (two's-complement wrap). -/
def wrap16 (x : Int) : Int :=
  (x + 32768) % 65536 - 32768

/-- `lw_math_rev_park`:
`alpha = (int16_t)((q*cos + d*sin) / 32768)`, `beta = (int16_t)((d*cos - q*sin) / 32768)`;
plain narrowing casts, no saturation. -/
def lw_math_rev_park (input : qd_t) (theta : Int) : alphabeta_t :=
  let c := lw_math_trig_functions theta
  let alpha_tmp1 := input.q * c.cos
  let alpha_tmp2 := input.d * c.sin
  let beta_tmp1 := input.q * c.sin
  let beta_tmp2 := input.d * c.cos
  { alpha := wrap16 (Int.tdiv (alpha_tmp1 + alpha_tmp2) 32768),
    beta := wrap16 (Int.tdiv (beta_tmp2 - beta_tmp1) 32768) }

/-- `FCONV(a, q1, q2)`: `(((q2)>(q1)) ? (a)<<((q2)-(q1)) : (a)>>((q1)-(q2)))`.
Left shift is multiplication by a power of two; arithmetic right shift of a
signed value is floor division (`Int.fdiv`). -/
def FCONV (a : Int) (q1 q2 : Nat) : Int :=
  if q1 < q2 then a * 2 ^ (q2 - q1) else Int.fdiv a (2 ^ (q1 - q2))

/-- `FDIV(a, b, q)`: `((fix_t)(((int64_t)(a)<<(q))/(int64_t)(b)))`. -/
def FDIV (a b : Int) (q : Nat) : Int :=
  Int.tdiv (a * 2 ^ q) b

/-- `FDIVG(a, b, q1, q2, q3)`: `(FCONV(a, q1, (q2)+(q3))/(b))`. -/
def FDIVG (a b : Int) (q1 q2 q3 : Nat) : Int :=
  Int.tdiv (FCONV a q1 (q2 + q3)) b

/-- The reading of claim C9's formula: plain (truncating) division of the two
operands converted to the common format `q3`. -/
def FDIVG_claimed (a b : Int) (q1 q2 q3 : Nat) : Int :=
  Int.tdiv (FCONV a q1 q3) (FCONV b q2 q3)

/-- Specification-side description of the Clarke/Park output policy: clamp a
32-bit intermediate to the signed 16-bit range. -/
def clamp16 (w : Int) : Int :=
  max (-32768) (min 32767 w)

/-- Specification-side description of the Clarke/Park output policy: clamp to
the signed 16-bit range, and nudge an exact `-32768` to `-32767`. -/
def clampNudge (w : Int) : Int :=
  if clamp16 w = -32768 then -32767 else clamp16 w

/-- Specification-side description of claim C7's square-root algorithm:
iterate `next = (guess + input/guess) / 2` (truncating division) from the
given guess, stopping when `next = guess` or after the given number of
iterations, whichever comes first. -/
def sqrt_spec_iter (input : Int) : Int → Nat → Int
  | guess, 0 => guess
  | guess, n + 1 =>
    let next := Int.tdiv (guess + Int.tdiv input guess) 2
    if next = guess then guess else sqrt_spec_iter input next n

/-! ## Helper lemmas -/

lemma tdiv_cast_nat (m n : Nat) :
    Int.tdiv (m : Int) (n : Int) = ((m / n : Nat) : Int) :=
  (Int.ofNat_tdiv m n).symm

lemma tdiv_neg_eq_ediv (f : Int) (b : Int) (hf : f < 0) (hb : 0 < b) :
    Int.tdiv (f - b + 1) b = f / b := by
  have h1 : f - b + 1 = -(b - 1 - f) := by ring
  rw [h1, Int.neg_tdiv, Int.tdiv_eq_ediv (by omega) (by omega)]
  have h2 : b - 1 - f = (b - 1 - f % b) + (-(f / b)) * b := by
    conv_lhs => rw [← Int.ediv_add_emod f b]
    ring
  have hm1 : 0 ≤ f % b := Int.emod_nonneg f (by omega)
  have hm2 : f % b < b := Int.emod_lt_of_pos f hb
  rw [h2, Int.add_mul_ediv_right _ _ (by omega : b ≠ 0),
    Int.ediv_eq_zero_of_lt (by omega) (by omega)]
  ring

lemma sat_nudge_spec (w : Int) :
    (if (if 32767 < w then (32767 : Int) else if w < -32768 then -32768 else w) = -32768
      then (-32767 : Int)
      else if 32767 < w then 32767 else if w < -32768 then -32768 else w)
    = clampNudge w := by
  by_cases h1 : 32767 < w <;> by_cases h2 : w < -32768 <;>
    simp [clampNudge, clamp16, max_def, min_def, h1, h2] <;> omega

lemma clampNudge_bounds (w : Int) : -32767 ≤ clampNudge w ∧ clampNudge w ≤ 32767 := by
  by_cases h1 : 32767 < w <;> by_cases h2 : w < -32768 <;>
    simp [clampNudge, clamp16, max_def, min_def, h1, h2] <;> omega

/-! ## C1: Clarke transform -/

/-- C1: for every int16 input `(a, b)`, `lw_math_clarke` returns `alpha = a`
exactly, and `beta` equal to `-(0x49E6*a + 2*0x49E6*b)` divided (truncating)
by 32768, clamped to the signed 16-bit range with an exact `-32768` nudged to
`-32767`; the returned `beta` is never `-32768` (always at least `-32767`). -/
theorem C1_clarke (a b : Int) (ha1 : -32768 ≤ a) (ha2 : a ≤ 32767)
    (hb1 : -32768 ≤ b) (hb2 : b ≤ 32767) :
    (lw_math_clarke ⟨a, b⟩).alpha = a ∧
    (lw_math_clarke ⟨a, b⟩).beta
      = clampNudge (Int.tdiv (-(0x49E6 * a + 2 * (0x49E6 * b))) 32768) ∧
    -32767 ≤ (lw_math_clarke ⟨a, b⟩).beta ∧
    (lw_math_clarke ⟨a, b⟩).beta ≤ 32767 := by
  have hnum : -(divSQRT_3 * a) - divSQRT_3 * b - divSQRT_3 * b
      = -(0x49E6 * a + 2 * (0x49E6 * b)) := by unfold divSQRT_3; ring
  simp only [lw_math_clarke]
  rw [hnum, sat_nudge_spec]
  exact ⟨by trivial, by trivial, (clampNudge_bounds _).1, (clampNudge_bounds _).2⟩

/-- Witness for C1 at the spec's scenario `a = 32767`, `b = 0`. -/
theorem C1_clarke_witness :
    (lw_math_clarke ⟨32767, 0⟩).alpha = 32767 ∧
    (lw_math_clarke ⟨32767, 0⟩).beta
      = clampNudge (Int.tdiv (-(0x49E6 * 32767 + 2 * (0x49E6 * 0))) 32768) ∧
    -32767 ≤ (lw_math_clarke ⟨32767, 0⟩).beta ∧
    (lw_math_clarke ⟨32767, 0⟩).beta ≤ 32767 :=
  C1_clarke 32767 0 (by decide) (by decide) (by decide) (by decide)

/-! ## C2: Park transform -/

/-- C2: for every int16 `(alpha, beta)` and int16 angle `theta`,
`lw_math_park` returns `q = (alpha*cos - beta*sin) / 32768` and
`d = (alpha*sin + beta*cos) / 32768` with `(cos, sin) = lw_math_trig_functions theta`,
each quotient saturated to the signed 16-bit range and nudged from `-32768`
to `-32767`, so neither returned component is ever `-32768`. -/
theorem C2_park (alpha beta theta : Int)
    (h1 : -32768 ≤ alpha) (h2 : alpha ≤ 32767)
    (h3 : -32768 ≤ beta) (h4 : beta ≤ 32767)
    (h5 : -32768 ≤ theta) (h6 : theta ≤ 32767) :
    (lw_math_park ⟨alpha, beta⟩ theta).q
      = clampNudge (Int.tdiv
          (alpha * (lw_math_trig_functions theta).cos
            - beta * (lw_math_trig_functions theta).sin) 32768) ∧
    (lw_math_park ⟨alpha, beta⟩ theta).d
      = clampNudge (Int.tdiv
          (alpha * (lw_math_trig_functions theta).sin
            + beta * (lw_math_trig_functions theta).cos) 32768) ∧
    -32767 ≤ (lw_math_park ⟨alpha, beta⟩ theta).q ∧
    (lw_math_park ⟨alpha, beta⟩ theta).q ≤ 32767 ∧
    -32767 ≤ (lw_math_park ⟨alpha, beta⟩ theta).d ∧
    (lw_math_park ⟨alpha, beta⟩ theta).d ≤ 32767 := by
  set c := lw_math_trig_functions theta with hc
  simp only [lw_math_park]
  rw [sat_nudge_spec, sat_nudge_spec]
  exact ⟨rfl, rfl, (clampNudge_bounds _).1, (clampNudge_bounds _).2,
    (clampNudge_bounds _).1, (clampNudge_bounds _).2⟩

/-- Witness for C2 at `alpha = beta = -32768`, `theta = 8192` (the `d`
component saturates there). -/
theorem C2_park_witness :
    (lw_math_park ⟨-32768, -32768⟩ 8192).q
      = clampNudge (Int.tdiv
          ((-32768) * (lw_math_trig_functions 8192).cos
            - (-32768) * (lw_math_trig_functions 8192).sin) 32768) ∧
    (lw_math_park ⟨-32768, -32768⟩ 8192).d
      = clampNudge (Int.tdiv
          ((-32768) * (lw_math_trig_functions 8192).sin
            + (-32768) * (lw_math_trig_functions 8192).cos) 32768) ∧
    -32767 ≤ (lw_math_park ⟨-32768, -32768⟩ 8192).q ∧
    (lw_math_park ⟨-32768, -32768⟩ 8192).q ≤ 32767 ∧
    -32767 ≤ (lw_math_park ⟨-32768, -32768⟩ 8192).d ∧
    (lw_math_park ⟨-32768, -32768⟩ 8192).d ≤ 32767 :=
  C2_park (-32768) (-32768) 8192 (by decide) (by decide) (by decide)
    (by decide) (by decide) (by decide)

/-! ## C3: inverse Park transform -/

/-- C3: for every int16 `(q, d)` and int16 angle `theta`, `lw_math_rev_park`
returns `alpha = (q*cos + d*sin) / 32768` and `beta = (d*cos - q*sin) / 32768`
(truncating division), each reduced to 16 bits by a plain narrowing cast
(two's-complement wrap mod `2^16`) with no saturation and no nudge; and for
some input the 32-bit quotient lies outside `[-32768, 32767]` and the
returned component is the wrapped value: at `q = d = -32768`, `theta = 8192`
the alpha quotient is `-46197` and the returned alpha is `wrap16 (-46197) = 19339`. -/
theorem C3_rev_park :
    (∀ (q d theta : Int), -32768 ≤ q → q ≤ 32767 → -32768 ≤ d → d ≤ 32767 →
      -32768 ≤ theta → theta ≤ 32767 →
      lw_math_rev_park ⟨q, d⟩ theta =
        { alpha := wrap16 (Int.tdiv
            (q * (lw_math_trig_functions theta).cos
              + d * (lw_math_trig_functions theta).sin) 32768),
          beta := wrap16 (Int.tdiv
            (d * (lw_math_trig_functions theta).cos
              - q * (lw_math_trig_functions theta).sin) 32768) }) ∧
    Int.tdiv ((-32768) * (lw_math_trig_functions 8192).cos
      + (-32768) * (lw_math_trig_functions 8192).sin) 32768 = -46197 ∧
    (-46197 : Int) < -32768 ∧
    (lw_math_rev_park ⟨-32768, -32768⟩ 8192).alpha = wrap16 (-46197) ∧
    wrap16 (-46197) = 19339 := by
  refine ⟨?_, by decide, by decide, by decide, by decide⟩
  intro q d theta _ _ _ _ _ _
  rfl

/-- Witness for C3: the universally quantified part applied at
`q = 1, d = 2, theta = 3`. -/
theorem C3_rev_park_witness :
    lw_math_rev_park ⟨1, 2⟩ 3 =
      { alpha := wrap16 (Int.tdiv
          (1 * (lw_math_trig_functions 3).cos
            + 2 * (lw_math_trig_functions 3).sin) 32768),
        beta := wrap16 (Int.tdiv
          (2 * (lw_math_trig_functions 3).cos
            - 1 * (lw_math_trig_functions 3).sin) 32768) } :=
  C3_rev_park.1 1 2 3 (by decide) (by decide) (by decide) (by decide)
    (by decide) (by decide)

/-! ## C5: trig values at canonical angles -/

/-- C5: `lw_math_trig_functions 0 = (cos = 32766, sin = 0)`,
`lw_math_trig_functions 16384 = (cos = 0, sin = 32766)`, and at `-32768` and
`32767` the cosine is the minimum representable amplitude `-32766` and the
sine is `0`. -/
theorem C5_trig_canonical :
    lw_math_trig_functions 0 = ⟨32766, 0⟩ ∧
    lw_math_trig_functions 16384 = ⟨0, 32766⟩ ∧
    lw_math_trig_functions (-32768) = ⟨-32766, 0⟩ ∧
    lw_math_trig_functions 32767 = ⟨-32766, 0⟩ := by
  decide

/-! ## C9: the general cross-format divide -/

/-- C9 counterexample: at `a = 1, b = 1, q1 = 0, q2 = 0, q3 = 4` the claimed
identity `FDIVG a b q1 q2 q3 = FCONV a q1 q3 / FCONV b q2 q3` (plain
truncating division of the converted operands) fails: `FDIVG` gives 16, the
claimed formula gives 1 (the converted `b` is nonzero and all shifts are in
range). -/
theorem C9_fdivg_counterexample :
    FDIVG 1 1 0 0 4 = 16 ∧ FDIVG_claimed 1 1 0 0 4 = 1 ∧
    FCONV 1 0 4 ≠ 0 ∧
    FDIVG 1 1 0 0 4 ≠ FDIVG_claimed 1 1 0 0 4 := by
  decide

lemma FCONV_of_le (a : Int) (q1 q2 : Nat) (h : q1 ≤ q2) :
    FCONV a q1 q2 = a * 2 ^ (q2 - q1) := by
  unfold FCONV
  rcases lt_or_eq_of_le h with h' | h'
  · rw [if_pos h']
  · subst h'
    simp [Int.fdiv_one]

lemma tdiv_mul_cancel_right (x y c : Int) (hc : 0 < c) :
    Int.tdiv (x * c) (y * c) = Int.tdiv x y := by
  have base : ∀ (n m : Nat), Int.tdiv ((n : Int) * c) ((m : Int) * c) = Int.tdiv n m := by
    intro n m
    rw [Int.tdiv_eq_ediv (by positivity) (by positivity),
      Int.tdiv_eq_ediv (by positivity) (by positivity),
      Int.mul_ediv_mul_of_pos_left (n : Int) (m : Int) hc]
  obtain ⟨n, rfl | rfl⟩ := Int.eq_nat_or_neg x <;>
    obtain ⟨m, rfl | rfl⟩ := Int.eq_nat_or_neg y <;>
    simp only [neg_mul, Int.neg_tdiv, Int.tdiv_neg, neg_neg, base]

/-- C9 amended: with both operand formats no larger than the target format
(`q1 ≤ q3`, `q2 ≤ q3`) and `b ≠ 0`, `FDIVG` equals the *q3-format* division
`FDIV` of the two operands converted to `q3`. -/
theorem C9_fdivg_amended (a b : Int) (q1 q2 q3 : Nat)
    (h1 : q1 ≤ q3) (h2 : q2 ≤ q3) (hb : b ≠ 0) :
    FDIVG a b q1 q2 q3 = FDIV (FCONV a q1 q3) (FCONV b q2 q3) q3 := by
  unfold FDIVG FDIV
  rw [FCONV_of_le a q1 (q2 + q3) (by omega), FCONV_of_le a q1 q3 h1,
    FCONV_of_le b q2 q3 h2]
  have hexp : a * 2 ^ (q3 - q1) * 2 ^ q3 = a * 2 ^ (q2 + q3 - q1) * 2 ^ (q3 - q2) := by
    rw [mul_assoc, mul_assoc, ← pow_add, ← pow_add]
    congr 2
    omega
  rw [hexp, tdiv_mul_cancel_right _ _ _ (by positivity)]

/-- Witness for C9 (amended) at `a = 1, b = 1, q1 = 0, q2 = 0, q3 = 4`. -/
theorem C9_fdivg_amended_witness :
    FDIVG 1 1 0 0 4 = FDIV (FCONV 1 0 4) (FCONV 1 0 4) 4 :=
  C9_fdivg_amended 1 1 0 0 4 (by decide) (by decide) (by decide)

/-! ## C10: integer and fractional part of a fixed-point number -/

lemma fract_eq_emod (f : Int) (q : Nat) (hq : q ≤ 32) :
    lw_math_fix_fract_part f q = f % 2 ^ q := by
  unfold lw_math_fix_fract_part
  rw [Nat.and_pow_two_sub_one_eq_mod _ q]
  push_cast
  rw [Int.toNat_of_nonneg (Int.emod_nonneg f (by positivity))]
  exact Int.emod_emod_of_dvd f (pow_dvd_pow 2 hq)

lemma fix_2_int_eq_fdiv (f : Int) (q : Nat) :
    lw_math_fix_2_int f q = f / 2 ^ q := by
  unfold lw_math_fix_2_int
  split_ifs with h
  · exact Int.tdiv_eq_ediv h (by positivity)
  · exact tdiv_neg_eq_ediv f (2 ^ q) (by omega) (by positivity)

/-- C10: for every `fix_t` value `f` and every `q` in `[0, 30]`,
`lw_math_fix_2_int f q * 2^q + lw_math_fix_fract_part f q = f`, with
`lw_math_fix_fract_part f q` in `[0, 2^q)`: the integer part is a floor and the
fractional part a non-negative remainder, including for negative `f`. -/
theorem C10_fix_int_fract (f : Int) (q : Nat) (hq : q ≤ 30) :
    lw_math_fix_2_int f q * 2 ^ q + lw_math_fix_fract_part f q = f ∧
    0 ≤ lw_math_fix_fract_part f q ∧ lw_math_fix_fract_part f q < 2 ^ q := by
  rw [fix_2_int_eq_fdiv, fract_eq_emod f q (by omega)]
  refine ⟨?_, Int.emod_nonneg f (by positivity),
    Int.emod_lt_of_pos f (by positivity)⟩
  rw [mul_comm]
  exact Int.ediv_add_emod f (2 ^ q)

/-- Witness for C10 at `f = -7`, `q = 1`. -/
theorem C10_fix_int_fract_witness :
    lw_math_fix_2_int (-7) 1 * 2 ^ 1 + lw_math_fix_fract_part (-7) 1 = -7 ∧
    0 ≤ lw_math_fix_fract_part (-7) 1 ∧ lw_math_fix_fract_part (-7) 1 < 2 ^ 1 :=
  C10_fix_int_fract (-7) 1 (by decide)

/-! ## C4: trig output bounds -/

set_option maxRecDepth 4096 in
lemma table_entry_bounds : ∀ x ∈ sin_cos_table, 0 ≤ x ∧ x ≤ 32766 := by
  decide

lemma getD_table_bounds (i : Nat) :
    0 ≤ sin_cos_table.getD i 0 ∧ sin_cos_table.getD i 0 ≤ 32766 := by
  by_cases h : i < sin_cos_table.length
  · rw [List.getD_eq_getElem sin_cos_table 0 h]
    exact table_entry_bounds _ (List.getElem_mem h)
  · rw [List.getD_eq_default sin_cos_table 0 (by omega)]
    exact ⟨le_refl 0, by norm_num⟩

/-- C4: for every int16 angle, both fields of `lw_math_trig_functions` lie in
`[-32766, 32766]` (every table entry is at most `0x7FFE` and each output is a
table entry or its negation); in particular `-32768` is never produced. -/
theorem C4_trig_bounds (angle : Int) (h1 : -32768 ≤ angle) (h2 : angle ≤ 32767) :
    -32766 ≤ (lw_math_trig_functions angle).cos ∧
    (lw_math_trig_functions angle).cos ≤ 32766 ∧
    -32766 ≤ (lw_math_trig_functions angle).sin ∧
    (lw_math_trig_functions angle).sin ≤ 32766 ∧
    (lw_math_trig_functions angle).cos ≠ -32768 ∧
    (lw_math_trig_functions angle).sin ≠ -32768 := by
  have hb1 := getD_table_bounds (trig_uhindex angle % 256)
  have hb2 := getD_table_bounds (0xFF - trig_uhindex angle % 256)
  dsimp only [lw_math_trig_functions]
  split_ifs <;> dsimp only <;> omega

/-- Witness for C4 at `angle = 0`. -/
theorem C4_trig_bounds_witness :
    -32766 ≤ (lw_math_trig_functions 0).cos ∧
    (lw_math_trig_functions 0).cos ≤ 32766 ∧
    -32766 ≤ (lw_math_trig_functions 0).sin ∧
    (lw_math_trig_functions 0).sin ≤ 32766 ∧
    (lw_math_trig_functions 0).cos ≠ -32768 ∧
    (lw_math_trig_functions 0).sin ≠ -32768 :=
  C4_trig_bounds 0 (by decide) (by decide)

/-! ## C6: quadrant dispatch safety -/

lemma uhindex_lt (angle : Int) (h1 : -32768 ≤ angle) (h2 : angle ≤ 32767) :
    trig_uhindex angle < 1024 := by
  unfold trig_uhindex
  rw [Int.emod_eq_of_lt (by omega) (by omega)]
  omega

set_option maxRecDepth 8192 in
lemma mask_cases (u : Nat) (h : u < 1024) :
    u &&& 0x0300 = 0x0200 ∨ u &&& 0x0300 = 0x0300 ∨
    u &&& 0x0300 = 0x0000 ∨ u &&& 0x0300 = 0x0100 := by
  have hv : ∀ v : Fin 1024, (v.val &&& 0x0300 = 0x0200 ∨ v.val &&& 0x0300 = 0x0300 ∨
      v.val &&& 0x0300 = 0x0000 ∨ v.val &&& 0x0300 = 0x0100) := by decide
  exact hv ⟨u, h⟩

/-- C6: for every int16 angle, the 10-bit index masked with `0x0300` yields
one of the four quadrant selectors `0x0200, 0x0300, 0x0000, 0x0100` (so
exactly one switch case executes and the `default` branch is unreachable),
and every table lookup index is in `[0, 255]`. -/
theorem C6_trig_index_safety (angle : Int) (h1 : -32768 ≤ angle) (h2 : angle ≤ 32767) :
    (trig_uhindex angle &&& SIN_MASK = U0_90 ∨
     trig_uhindex angle &&& SIN_MASK = U90_180 ∨
     trig_uhindex angle &&& SIN_MASK = U180_270 ∨
     trig_uhindex angle &&& SIN_MASK = U270_360) ∧
    trig_uhindex angle % 256 < 256 ∧
    0xFF - trig_uhindex angle % 256 < 256 := by
  refine ⟨?_, Nat.mod_lt _ (by norm_num), by omega⟩
  have h := mask_cases (trig_uhindex angle) (uhindex_lt angle h1 h2)
  simpa [SIN_MASK, U0_90, U90_180, U180_270, U270_360] using h

/-- Witness for C6 at `angle = 0`. -/
theorem C6_trig_index_safety_witness :
    (trig_uhindex 0 &&& SIN_MASK = U0_90 ∨
     trig_uhindex 0 &&& SIN_MASK = U90_180 ∨
     trig_uhindex 0 &&& SIN_MASK = U180_270 ∨
     trig_uhindex 0 &&& SIN_MASK = U270_360) ∧
    trig_uhindex 0 % 256 < 256 ∧
    0xFF - trig_uhindex 0 % 256 < 256 :=
  C6_trig_index_safety 0 (by decide) (by decide)

/-! ## C7: square-root algorithm -/

lemma sqrt_loop_eq_spec_iter (input : Int) :
    ∀ (n : Nat) (g : Int), sqrt_loop input (n + 1) g = sqrt_spec_iter input g (n + 1) := by
  intro n
  induction n with
  | zero =>
    intro g
    show (if Int.tdiv (g + Int.tdiv input g) 2 = g then Int.tdiv (g + Int.tdiv input g) 2
        else if (0 : Nat) = 0 then Int.tdiv (g + Int.tdiv input g) 2
        else sqrt_loop input 0 (Int.tdiv (g + Int.tdiv input g) 2))
      = (if Int.tdiv (g + Int.tdiv input g) 2 = g then g
        else sqrt_spec_iter input (Int.tdiv (g + Int.tdiv input g) 2) 0)
    split_ifs with h h2
    · exact h
    · rfl
    · omega
  | succ m ih =>
    intro g
    show (if Int.tdiv (g + Int.tdiv input g) 2 = g then Int.tdiv (g + Int.tdiv input g) 2
        else if m + 1 = 0 then Int.tdiv (g + Int.tdiv input g) 2
        else sqrt_loop input (m + 1) (Int.tdiv (g + Int.tdiv input g) 2))
      = (if Int.tdiv (g + Int.tdiv input g) 2 = g then g
        else sqrt_spec_iter input (Int.tdiv (g + Int.tdiv input g) 2) (m + 1))
    split_ifs with h h2
    · exact h
    · exact h2.elim
    · exact ih _

/-- C7: `lw_math_sqrt` returns 0 for every input ≤ 0; for input > 0 it
returns the result of iterating `next = (guess + input/guess) / 2`
(truncating division) from guess 128 if `input ≤ 2097152` else 8192,
stopping when `next = guess` or after exactly 6 iterations. -/
theorem C7_sqrt_algorithm (input : Int) :
    lw_math_sqrt input =
      (if 0 < input then
        sqrt_spec_iter input (if input ≤ 2097152 then 128 else 8192) 6
      else 0) := by
  unfold lw_math_sqrt
  split_ifs with h h2
  · exact sqrt_loop_eq_spec_iter input 5 _
  · exact sqrt_loop_eq_spec_iter input 5 _
  · rfl

/-! ## C8: monotonicity of `lw_math_sqrt`

For positive input the loop of `lw_math_sqrt` equals six iterations of the
Newton step on naturals (a converged run keeps returning the same value, so
early exit does not change the result). Monotonicity follows from:
every iterate after the first is at least `Nat.sqrt x`, and a pairwise
comparison of the two trajectories. -/

/-- The Newton iteration step of `lw_math_sqrt`, on naturals. -/
def newton_step (x g : Nat) : Nat := (g + x / g) / 2

lemma newton_step_ge_sqrt (x g : Nat) (hg : 1 ≤ g) :
    Nat.sqrt x ≤ newton_step x g := by
  unfold newton_step
  set s := Nat.sqrt x with hs
  set q := x / g with hq
  rcases le_or_lt (2 * s) (g + q) with h | h
  · rw [Nat.le_div_iff_mul_le (by norm_num)]
    omega
  · exfalso
    have h1 : g * q + x % g = x := Nat.div_add_mod x g
    have h2 : x % g < g := Nat.mod_lt x (by omega)
    have h3 : x < g * (q + 1) := by
      have e : g * (q + 1) = g * q + g := by ring
      omega
    have h4 : 4 * (g * (q + 1)) ≤ (g + q + 1) ^ 2 := by
      nlinarith [two_mul_le_add_sq g (q + 1)]
    have h5 : (g + q + 1) ^ 2 ≤ (2 * s) ^ 2 := Nat.pow_le_pow_left (by omega) 2
    have h6 : s * s ≤ x := Nat.sqrt_le x
    nlinarith

lemma newton_step_mono_input (x y g : Nat) (hxy : x ≤ y) :
    newton_step x g ≤ newton_step y g :=
  Nat.div_le_div_right (Nat.add_le_add_left (Nat.div_le_div_right hxy) g)

lemma newton_step_le_of_le_mul (x y g g' : Nat) (hg : 1 ≤ g) (hlt : g < g')
    (hxy : x ≤ y) (hx : x ≤ g * g') : newton_step x g ≤ newton_step y g' := by
  unfold newton_step
  have hty : x / g' ≤ y / g' := Nat.div_le_div_right hxy
  suffices h : g + x / g ≤ g' + x / g' by
    calc (g + x / g) / 2 ≤ (g' + x / g') / 2 := Nat.div_le_div_right h
      _ ≤ (g' + y / g') / 2 := Nat.div_le_div_right (by omega)
  rcases eq_or_lt_of_le hx with hxe | hxl
  · have e1 : x / g = g' := by rw [hxe]; exact Nat.mul_div_cancel_left g' (by omega)
    have e2 : x / g' = g := by rw [hxe]; exact Nat.mul_div_cancel g (by omega)
    omega
  · set t := x / g' with ht
    have h1 : g' * t + x % g' = x := Nat.div_add_mod x g'
    have h2 : x % g' < g' := Nat.mod_lt x (by omega)
    have htg : t < g := by
      by_contra hc
      push_neg at hc
      have hm : g * g' ≤ g' * t := by
        calc g * g' = g' * g := by ring
          _ ≤ g' * t := Nat.mul_le_mul_left g' hc
      omega
    obtain ⟨d, hd⟩ : ∃ d, g' = g + d + 1 := ⟨g' - g - 1, by omega⟩
    have key : g' * (t + 1) ≤ g * (t + (d + 1) + 1) := by
      have hm : (d + 1) * (t + 1) ≤ (d + 1) * g := Nat.mul_le_mul_left _ (by omega)
      calc g' * (t + 1) = g * (t + 1) + (d + 1) * (t + 1) := by rw [hd]; ring
        _ ≤ g * (t + 1) + (d + 1) * g := by omega
        _ = g * (t + (d + 1) + 1) := by ring
    have hx2 : x < g' * (t + 1) := by
      have e : g' * (t + 1) = g' * t + g' := by ring
      omega
    have hdivlt : x / g < t + (d + 1) + 1 := by
      rw [Nat.div_lt_iff_lt_mul (by omega : 0 < g)]
      calc x < g' * (t + 1) := hx2
        _ ≤ g * (t + (d + 1) + 1) := key
        _ = (t + (d + 1) + 1) * g := by ring
    omega

lemma newton_step_le_main (x y g g' : Nat) (hx : 1 ≤ x) (hxy : x < y) (hg : 1 ≤ g)
    (hle : g ≤ g') (hsx : Nat.sqrt x ≤ g) : newton_step x g ≤ newton_step y g' := by
  rcases eq_or_lt_of_le hle with rfl | hlt
  · exact newton_step_mono_input x y g (le_of_lt hxy)
  rcases le_or_lt x (g * g') with hcase | hcase
  · exact newton_step_le_of_le_mul x y g g' hg hlt (le_of_lt hxy) hcase
  · have hgg : g * g ≤ x := by
      have hm : g * g ≤ g * g' := Nat.mul_le_mul_left g (le_of_lt hlt)
      omega
    have hgs : g = Nat.sqrt x := le_antisymm (Nat.le_sqrt.mpr hgg) hsx
    have hxu : x ≤ g * g + 2 * g := by
      have h := Nat.lt_succ_sqrt x
      rw [← hgs] at h
      have h' : x < (g + 1) * (g + 1) := by
        simpa [Nat.succ_eq_add_one] using h
      have e : (g + 1) * (g + 1) = g * g + 2 * g + 1 := by ring
      omega
    have hg' : g' = g + 1 := by
      by_contra hc
      have hge : g + 2 ≤ g' := by omega
      have hm : g * (g + 2) ≤ g * g' := Nat.mul_le_mul_left g hge
      have e : g * (g + 2) = g * g + 2 * g := by ring
      omega
    have hy1 : Nat.sqrt y ≤ newton_step y g' := newton_step_ge_sqrt y g' (by omega)
    rcases eq_or_lt_of_le hxu with hxe | hxlt
    · have hdiv : x / g = g + 2 := by
        have e : g * g + 2 * g = g * (g + 2) := by ring
        rw [hxe, e]
        exact Nat.mul_div_cancel_left (g + 2) (by omega)
      have lhs_le : newton_step x g ≤ g + 1 := by
        unfold newton_step
        rw [hdiv]
        omega
      have hys : g + 1 ≤ Nat.sqrt y := by
        rw [Nat.le_sqrt]
        have e : (g + 1) * (g + 1) = g * g + 2 * g + 1 := by ring
        omega
      omega
    · have hdiv : x / g < g + 2 := by
        rw [Nat.div_lt_iff_lt_mul (by omega : 0 < g)]
        have e : (g + 2) * g = g * g + 2 * g := by ring
        omega
      have lhs_le : newton_step x g ≤ g := by
        unfold newton_step
        omega
      have hsy : Nat.sqrt x ≤ Nat.sqrt y := Nat.sqrt_le_sqrt (le_of_lt hxy)
      omega

lemma newton_iter_pos (x g0 : Nat) (hx : 1 ≤ x) (hg : 1 ≤ g0) :
    ∀ k, 1 ≤ (newton_step x)^[k] g0 := by
  intro k
  induction k with
  | zero => simpa using hg
  | succ m ih =>
    rw [Function.iterate_succ_apply']
    have hs : 1 ≤ Nat.sqrt x := Nat.sqrt_pos.mpr (by omega)
    exact le_trans hs (newton_step_ge_sqrt x _ ih)

lemma newton_iter_ge_sqrt (x g0 : Nat) (hx : 1 ≤ x) (hg : 1 ≤ g0) (k : Nat) :
    Nat.sqrt x ≤ (newton_step x)^[k + 1] g0 := by
  rw [Function.iterate_succ_apply']
  exact newton_step_ge_sqrt x _ (newton_iter_pos x g0 hx hg k)

lemma newton_iter_mono (x y g0 : Nat) (hx : 1 ≤ x) (hxy : x ≤ y) (hg : 1 ≤ g0) :
    ∀ k, (newton_step x)^[k] g0 ≤ (newton_step y)^[k] g0 := by
  rcases eq_or_lt_of_le hxy with rfl | hlt
  · intro k; exact le_refl _
  intro k
  induction k with
  | zero => simp
  | succ m ih =>
    rw [Function.iterate_succ_apply', Function.iterate_succ_apply']
    cases m with
    | zero =>
      simp only [Function.iterate_zero_apply]
      exact newton_step_mono_input x y g0 (le_of_lt hlt)
    | succ n =>
      exact newton_step_le_main x y _ _ hx hlt
        (newton_iter_pos x g0 hx hg (n + 1)) ih
        (newton_iter_ge_sqrt x g0 hx hg n)

lemma step_cast (x g : Nat) :
    Int.tdiv ((g : Int) + Int.tdiv (x : Int) (g : Int)) 2
      = ((newton_step x g : Nat) : Int) := by
  unfold newton_step
  rw [tdiv_cast_nat x g,
    show ((g : Int) + ((x / g : Nat) : Int)) = (((g + x / g : Nat) : Int)) by push_cast; ring,
    show (2 : Int) = ((2 : Nat) : Int) by rfl, tdiv_cast_nat]

lemma sqrt_loop_eq_iterate (x : Nat) :
    ∀ (n : Nat) (g : Nat),
      sqrt_loop (x : Int) (n + 1) (g : Int) = (((newton_step x)^[n + 1] g : Nat) : Int) := by
  intro n
  induction n with
  | zero =>
    intro g
    show (if Int.tdiv ((g : Int) + Int.tdiv (x : Int) (g : Int)) 2 = (g : Int)
        then Int.tdiv ((g : Int) + Int.tdiv (x : Int) (g : Int)) 2
        else if (0 : Nat) = 0 then Int.tdiv ((g : Int) + Int.tdiv (x : Int) (g : Int)) 2
        else sqrt_loop (x : Int) 0 (Int.tdiv ((g : Int) + Int.tdiv (x : Int) (g : Int)) 2))
      = (((newton_step x)^[1] g : Nat) : Int)
    rw [step_cast]
    split_ifs with h h2
    · rw [Function.iterate_one]
    · rw [Function.iterate_one]
    · exact h2.elim rfl
  | succ m ih =>
    intro g
    show (if Int.tdiv ((g : Int) + Int.tdiv (x : Int) (g : Int)) 2 = (g : Int)
        then Int.tdiv ((g : Int) + Int.tdiv (x : Int) (g : Int)) 2
        else if m + 1 = 0 then Int.tdiv ((g : Int) + Int.tdiv (x : Int) (g : Int)) 2
        else sqrt_loop (x : Int) (m + 1) (Int.tdiv ((g : Int) + Int.tdiv (x : Int) (g : Int)) 2))
      = (((newton_step x)^[m + 2] g : Nat) : Int)
    rw [step_cast]
    split_ifs with h h2
    · have hfix : newton_step x g = g := by exact_mod_cast h
      rw [Function.iterate_fixed hfix]
      exact h
    · exact h2.elim
    · rw [ih (newton_step x g)]
      congr 1
      try exact (Function.iterate_succ_apply (newton_step x) (m + 1) g).symm

lemma lw_math_sqrt_eq_iterate (x : Nat) (hx : 0 < x) :
    lw_math_sqrt (x : Int)
      = (((newton_step x)^[6] (if x ≤ 2097152 then 128 else 8192) : Nat) : Int) := by
  unfold lw_math_sqrt
  rcases le_or_lt x 2097152 with h | h
  · rw [if_pos (by exact_mod_cast hx), if_pos (by exact_mod_cast h), if_pos h]
    exact sqrt_loop_eq_iterate x 5 128
  · rw [if_pos (by exact_mod_cast hx),
      if_neg (show ¬((x : Int) ≤ 2097152) by exact_mod_cast not_le.mpr h),
      if_neg (by omega)]
    exact sqrt_loop_eq_iterate x 5 8192

/-- C8: `lw_math_sqrt` is monotone non-decreasing on non-negative inputs. -/
theorem C8_sqrt_monotone (x y : Int) (hx : 0 ≤ x) (hxy : x ≤ y) :
    lw_math_sqrt x ≤ lw_math_sqrt y := by
  rcases le_or_lt x 0 with hx0 | hx0
  · have hxeq : lw_math_sqrt x = 0 := by
      unfold lw_math_sqrt
      rw [if_neg (by omega)]
    rw [hxeq]
    rcases le_or_lt y 0 with hy0 | hy0
    · unfold lw_math_sqrt
      rw [if_neg (by omega)]
    · obtain ⟨m, rfl⟩ : ∃ m : Nat, y = (m : Int) :=
        ⟨y.toNat, (Int.toNat_of_nonneg (by omega)).symm⟩
      rw [lw_math_sqrt_eq_iterate m (by exact_mod_cast hy0)]
      positivity
  · obtain ⟨n, rfl⟩ : ∃ n : Nat, x = (n : Int) :=
      ⟨x.toNat, (Int.toNat_of_nonneg hx).symm⟩
    obtain ⟨m, rfl⟩ : ∃ m : Nat, y = (m : Int) :=
      ⟨y.toNat, (Int.toNat_of_nonneg (by omega)).symm⟩
    have hn : 0 < n := by exact_mod_cast hx0
    have hm : 0 < m := by
      have hmi : (0 : Int) < (m : Int) := by omega
      exact_mod_cast hmi
    have hnm : n ≤ m := by exact_mod_cast hxy
    rw [lw_math_sqrt_eq_iterate n hn, lw_math_sqrt_eq_iterate m hm]
    have hgoal : ((newton_step n)^[6] (if n ≤ 2097152 then 128 else 8192))
        ≤ ((newton_step m)^[6] (if m ≤ 2097152 then 128 else 8192)) := by
      rcases le_or_lt m 2097152 with hm2 | hm2
      · rw [if_pos (le_trans hnm hm2), if_pos hm2]
        exact newton_iter_mono n m 128 hn hnm (by norm_num) 6
      · rcases le_or_lt n 2097152 with hn2 | hn2
        · rw [if_pos hn2, if_neg (by omega)]
          have h1 : (newton_step n)^[6] 128 ≤ (newton_step 2097152)^[6] 128 :=
            newton_iter_mono n 2097152 128 hn hn2 (by norm_num) 6
          have h2 : (newton_step 2097152)^[6] 128 = 1448 := by decide
          have h3 : 1448 ≤ Nat.sqrt m := by
            rw [Nat.le_sqrt]
            omega
          have h4 : Nat.sqrt m ≤ (newton_step m)^[6] 8192 :=
            newton_iter_ge_sqrt m 8192 hm (by norm_num) 5
          omega
        · rw [if_neg (by omega), if_neg (by omega)]
          exact newton_iter_mono n m 8192 hn hnm (by norm_num) 6
    exact_mod_cast hgoal

/-- Witness for C8 at `x = 3`, `y = 10`. -/
theorem C8_sqrt_monotone_witness : lw_math_sqrt 3 ≤ lw_math_sqrt 10 :=
  C8_sqrt_monotone 3 10 (by decide) (by decide)
